import Mathlib

/-! Shallow embedding of the lexgo lexing engine (lexgo.go) and its example
client grammar (example.go), with theorems checking the specification's
claims against the code.

Modelling conventions:
* The buffered rune source (a bufio.Reader in the source) is modelled as a
  list of units.  A unit is either a validly encoded rune (Rd.good c) or a
  malformed encoding unit (Rd.bad).  Per bufio.Reader.ReadRune semantics, a
  malformed unit is consumed (one byte) and comes back as
  (unicode.ReplacementChar, size 1, nil error), which the source's readRune
  turns into the dedicated invalid-utf8 error.  End of the list is io.EOF.
* Go errors are modelled by the inductive GoError; GoError.ioError stands
  for an arbitrary non-EOF I/O failure so that distinctness of the
  dedicated invalid-encoding error can be stated.
* The capacity-1 token channel is modelled as a FIFO list of tokens
  (send appends at the tail, receive takes the head).  In every execution
  considered here the producer and consumer strictly alternate, so at most
  one token is ever pending and capacity-1 blocking never occurs; the
  select-with-default in Next corresponds to taking the head when the list
  is nonempty.
* State functions (LexerFunc values) are defunctionalised: the engine is
  parameterised over a type of state tags together with a step function
  from tags and engine state to (new engine state, next tag or none).  A
  state function in the source only touches the unexported engine fields
  through the exported methods, which is why the step function acts on
  LexState (all engine fields except the current state function).
* Calling a nil Go function value panics; Next can do this, so its result
  type has an explicit constructor for that panic.  Next is given fuel to
  make the trampoline loop structurally recursive; running out of fuel is
  reported by a separate constructor, never conflated with real outcomes.
-/

namespace Lexgo

/-- Rd is one unit delivered by the buffered reader: either a validly
encoded rune or a malformed (invalid UTF-8) encoding unit. -/
inductive Rd where
  | good (c : Char)
  | bad
  deriving DecidableEq, Repr

/-- GoError models the error values of the source: io.EOF, the package's
errInvalidUTF8, and arbitrary other I/O failures. -/
inductive GoError where
  | eof
  | invalidUTF8
  | ioError (msg : String)
  deriving DecidableEq, Repr

/-- Equality of Except values is decidable when it is on both components;
needed to evaluate the read primitives on concrete inputs. -/
instance {ε α : Type} [DecidableEq ε] [DecidableEq α] : DecidableEq (Except ε α) := fun a b =>
  match a, b with
  | Except.ok x, Except.ok y =>
      if h : x = y then Decidable.isTrue (by rw [h])
      else Decidable.isFalse (fun hh => h (Except.ok.inj hh))
  | Except.error x, Except.error y =>
      if h : x = y then Decidable.isTrue (by rw [h])
      else Decidable.isFalse (fun hh => h (Except.error.inj hh))
  | Except.ok _, Except.error _ => Decidable.isFalse (fun hh => Except.noConfusion hh)
  | Except.error _, Except.ok _ => Decidable.isFalse (fun hh => Except.noConfusion hh)

/-- TokenType is the enumerator type for kinds of tokens (Go: type TokenType int). -/
abbrev TokenType := Int

/-- Err is the builtin TokenType for errors encountered reading the byte
stream (first enumerator, value 0). -/
def Err : TokenType := 0

/-- UserDefined is the first TokenType available to clients (value 1). -/
def UserDefined : TokenType := 1

/-- OpenParen is the example client's first token type (UserDefined + 0). -/
def OpenParen : TokenType := UserDefined + 0

/-- CloseParen is the example client's second token type (UserDefined + 1). -/
def CloseParen : TokenType := UserDefined + 1

/-- AlphaNum is the example client's third token type (UserDefined + 2). -/
def AlphaNum : TokenType := UserDefined + 2

/-- Token represents a single set of characters of the given type, with the
row/column the characters started on, and an error value when the type is
Err.  Fields left unset by the source keep Go zero values (empty string, 0,
nil). -/
structure Token where
  tokenType : TokenType
  val : String
  row : Int
  col : Int
  err : Option GoError
  deriving DecidableEq, Repr

/-- LexState is the engine state apart from the current state function: the
remaining input units, the output buffer, the pending-token channel
contents, the row/col where the token being buffered started (-1 when not
started), and the absolute row/col of the rune most recently read. -/
structure LexState where
  rd : List Rd
  outbuf : String
  ch : List Token
  row : Int
  col : Int
  absRow : Int
  absCol : Int
  deriving DecidableEq, Repr

/-- errToken is the Token that EmitErr publishes: type Err, the error value,
and Go zero values for the remaining fields. -/
def errToken (e : GoError) : Token :=
  { tokenType := Err, val := "", row := 0, col := 0, err := some e }

/-- EmitErr publishes an error Token on the channel.  It does not affect the
output buffer (source: Lexer.EmitErr). -/
def EmitErr (e : GoError) (l : LexState) : LexState :=
  { l with ch := l.ch ++ [errToken e] }

/-- Emit packages the buffered text and its recorded start position into a
Token of the given type, publishes it, and resets the buffer and the
recorded position (source: Lexer.Emit). -/
def Emit (t : TokenType) (l : LexState) : LexState :=
  { l with
      ch := l.ch ++ [{ tokenType := t, val := l.outbuf, row := l.row, col := l.col,
                       err := none }],
      outbuf := "", row := -1, col := -1 }

/-- readRune is the unexported read primitive: it takes the next unit from
the reader; on end of stream it emits io.EOF and fails, and on a malformed
unit (ReplacementChar of size 1 from bufio) it emits the dedicated
invalid-utf8 error and fails, the malformed unit having been consumed
(source: Lexer.readRune). -/
def readRune (l : LexState) : Except GoError Char × LexState :=
  match l.rd with
  | [] => (Except.error GoError.eof, EmitErr GoError.eof l)
  | Rd.bad :: rest =>
      (Except.error GoError.invalidUTF8,
        EmitErr GoError.invalidUTF8 { l with rd := rest })
  | Rd.good c :: rest => (Except.ok c, { l with rd := rest })

/-- ReadRune returns the next rune in the stream; on success it advances the
absolute position: a newline increments absRow and resets absCol to 0, any
other rune increments absCol (source: Lexer.ReadRune). -/
def ReadRune (l : LexState) : Except GoError Char × LexState :=
  match readRune l with
  | (Except.error e, l') => (Except.error e, l')
  | (Except.ok c, l') =>
      if c = '\n' then (Except.ok c, { l' with absRow := l'.absRow + 1, absCol := 0 })
      else (Except.ok c, { l' with absCol := l'.absCol + 1 })

/-- PeekRune returns the next rune without advancing the reader: it reads a
rune and unreads it on success.  On failure it returns immediately, so a
malformed unit consumed by the inner read stays consumed (source:
Lexer.PeekRune; bufio.UnreadRune is not reached on the error path). -/
def PeekRune (l : LexState) : Except GoError Char × LexState :=
  match readRune l with
  | (Except.error e, l') => (Except.error e, l')
  | (Except.ok c, l') => (Except.ok c, { l' with rd := Rd.good c :: l'.rd })

/-- BufferRune appends the rune to the output buffer; if the buffered token
has not started yet (row and col both negative) it records the current
absolute position as the token's start (source: Lexer.BufferRune). -/
def BufferRune (r : Char) (l : LexState) : LexState :=
  let l' := { l with outbuf := l.outbuf.push r }
  if l'.row < 0 ∧ l'.col < 0 then { l' with row := l'.absRow, col := l'.absCol } else l'

/-- Lexer is the full engine state: LexState plus the current state
function, defunctionalised to an optional tag of type sigma (none models a
nil LexerFunc). -/
structure Lexer (σ : Type) where
  st : LexState
  state : Option σ
  deriving DecidableEq, Repr

/-- StepFn interprets a state tag as the source's LexerFunc: it transforms
the engine state and yields the next tag, or none to halt. -/
def StepFn (σ : Type) := σ → LexState → LexState × Option σ

/-- NewLexer constructs the engine over an input stream with the given first
state function: empty buffer and channel, row and col -1, absRow 1 and
absCol 0 (source: NewLexer; absCol is the Go zero value). -/
def NewLexer (input : List Rd) (firstFunc : Option σ) : Lexer σ :=
  { st := { rd := input, outbuf := "", ch := [], row := -1, col := -1,
            absRow := 1, absCol := 0 },
    state := firstFunc }

/-- NextRes is the outcome of one call to Next: a returned token, a Go
runtime panic from calling a nil state function, or fuel exhaustion of the
model (never an outcome of the source). -/
inductive NextRes (σ : Type) where
  | token (t : Token) (l : Lexer σ)
  | nilPanic (l : Lexer σ)
  | fuelOut
  deriving DecidableEq, Repr

/-- Next models Lexer.Next: take a pending token from the channel if there
is one; otherwise, if the current state is nil, emit io.EOF and then call
the nil state function, which panics; otherwise run the current state
function, make its result the current state, and loop. -/
def Next (step : StepFn σ) : Nat → Lexer σ → NextRes σ
  | 0, _ => NextRes.fuelOut
  | n + 1, l =>
    match l.st.ch with
    | t :: rest => NextRes.token t { l with st := { l.st with ch := rest } }
    | [] =>
      match l.state with
      | none => NextRes.nilPanic { l with st := EmitErr GoError.eof l.st }
      | some s =>
          let p := step s l.st
          Next step n { st := p.1, state := p.2 }

/-- Lexer.EmitErr lifts EmitErr to the full engine state; the Go method is
on the whole Lexer struct and does not touch the current state function. -/
def Lexer.EmitErr (l : Lexer σ) (e : GoError) : Lexer σ :=
  { l with st := Lexgo.EmitErr e l.st }

/-- unicodeIsSpace models unicode.IsSpace on the Latin-1 range, which is
exact for every rune the example grammar claims exercise; the White_Space
runes above U+00FF are not modelled. -/
def unicodeIsSpace (c : Char) : Bool :=
  c = ' ' || c = '\t' || c = '\n' || c.toNat = 11 || c.toNat = 12 || c = '\r' ||
    c.toNat = 133 || c.toNat = 160

/-- unicodeIsLetter models unicode.IsLetter on the ASCII range, which is
exact for every rune the example grammar claims exercise. -/
def unicodeIsLetter (c : Char) : Bool :=
  decide ('a' ≤ c ∧ c ≤ 'z') || decide ('A' ≤ c ∧ c ≤ 'Z')

/-- unicodeIsNumber models unicode.IsNumber on the ASCII range, which is
exact for every rune the example grammar claims exercise. -/
def unicodeIsNumber (c : Char) : Bool :=
  decide ('0' ≤ c ∧ c ≤ '9')

/-- LexerFunc defunctionalises the three state functions of the example
client grammar: lexWhitespace, lexComment and lexAlphaNum. -/
inductive LexerFunc where
  | lexWhitespace
  | lexComment
  | lexAlphaNum
  deriving DecidableEq, Repr

/-- lexStep interprets the example grammar's state functions, one branch per
source function: lexWhitespace skips spaces, enters comments on a hash,
buffers anything else and emits parens immediately; lexComment discards
until a newline; lexAlphaNum peeks, emits on a non-alphanumeric rune, and
otherwise consumes and buffers the peeked rune. -/
def lexStep : LexerFunc → LexState → LexState × Option LexerFunc
  | LexerFunc.lexWhitespace, lexer =>
    match ReadRune lexer with
    | (Except.error _, l') => (l', none)
    | (Except.ok r, l') =>
      if unicodeIsSpace r then (l', some LexerFunc.lexWhitespace)
      else if r = '#' then (l', some LexerFunc.lexComment)
      else
        let l2 := BufferRune r l'
        if r = '(' then (Emit OpenParen l2, some LexerFunc.lexWhitespace)
        else if r = ')' then (Emit CloseParen l2, some LexerFunc.lexWhitespace)
        else (l2, some LexerFunc.lexAlphaNum)
  | LexerFunc.lexComment, lexer =>
    match ReadRune lexer with
    | (Except.error _, l') => (l', none)
    | (Except.ok r, l') =>
      if r = '\n' then (l', some LexerFunc.lexWhitespace)
      else (l', some LexerFunc.lexComment)
  | LexerFunc.lexAlphaNum, lexer =>
    match PeekRune lexer with
    | (Except.error _, l') => (l', none)
    | (Except.ok r, l') =>
      if !(unicodeIsLetter r || unicodeIsNumber r) then
        (Emit AlphaNum l', some LexerFunc.lexWhitespace)
      else
        (BufferRune r (ReadRune l').2, some LexerFunc.lexAlphaNum)

/-- takeTokens drives the example lexer: it calls Next up to count times
with the given fuel per call and collects the returned tokens, stopping at
the first call that does not return a token. -/
def takeTokens (fuel : Nat) : Nat → Lexer LexerFunc → List Token
  | 0, _ => []
  | n + 1, l =>
    match Next lexStep fuel l with
    | NextRes.token t l' => t :: takeTokens fuel n l'
    | _ => []

/-- exLexer is the reference-grammar lexer over the input (a b). -/
def exLexer : Lexer LexerFunc :=
  NewLexer [Rd.good '(', Rd.good 'a', Rd.good ' ', Rd.good 'b', Rd.good ')']
    (some LexerFunc.lexWhitespace)

/-- haltedLexer is the engine state reached from the empty input after the
first Next call has delivered the end-of-stream token: channel drained,
current state function nil. -/
def haltedLexer : Lexer LexerFunc :=
  { st := { rd := [], outbuf := "", ch := [], row := -1, col := -1,
            absRow := 1, absCol := 0 },
    state := none }

/-- cexPeekState is a stream state whose next unit is malformed, followed by
a valid rune. -/
def cexPeekState : LexState :=
  { rd := [Rd.bad, Rd.good 'a'], outbuf := "", ch := [], row := -1, col := -1,
    absRow := 1, absCol := 0 }

/-- w7 is a stream state whose next unit is the valid rune a. -/
def w7 : LexState :=
  { rd := [Rd.good 'a'], outbuf := "", ch := [], row := -1, col := -1,
    absRow := 1, absCol := 0 }

/-- w8 is a stream state whose next unit is malformed. -/
def w8 : LexState :=
  { rd := [Rd.bad], outbuf := "", ch := [], row := -1, col := -1,
    absRow := 1, absCol := 0 }

/-- chanLexer is an engine state with a token already queued on the channel
and a live state function. -/
def chanLexer : Lexer LexerFunc :=
  { st := { rd := [], outbuf := "", ch := [errToken GoError.eof], row := -1, col := -1,
            absRow := 1, absCol := 0 },
    state := some LexerFunc.lexWhitespace }

/-- BOp is one engine action a state function can take while assembling a
token: read and discard the rune, read and buffer the rune read, or peek. -/
inductive BOp where
  | skip
  | keep
  | peekOp
  deriving DecidableEq, Repr

/-- runBOp executes one BOp against the engine state using the source
primitives; keep buffers the rune exactly when the read succeeded. -/
def runBOp : BOp → LexState → LexState
  | BOp.skip, l => (ReadRune l).2
  | BOp.keep, l =>
    match ReadRune l with
    | (Except.ok c, l') => BufferRune c l'
    | (Except.error _, l') => l'
  | BOp.peekOp, l => (PeekRune l).2

/-- runBOps executes a list of BOps left to right. -/
def runBOps : List BOp → LexState → LexState
  | [], l => l
  | op :: ops, l => runBOps ops (runBOp op l)

/-- firstKeptPos returns the absolute stream position directly after the
read of the first rune that a keep action buffers, when there is one: the
position at which that rune was read. -/
def firstKeptPos : List BOp → LexState → Option (Int × Int)
  | [], _ => none
  | BOp.skip :: ops, l => firstKeptPos ops (runBOp BOp.skip l)
  | BOp.peekOp :: ops, l => firstKeptPos ops (runBOp BOp.peekOp l)
  | BOp.keep :: ops, l =>
    match ReadRune l with
    | (Except.ok _, l') => some (l'.absRow, l'.absCol)
    | (Except.error _, l') => firstKeptPos ops l'

/-- bufferAll buffers a list of runes in order. -/
def bufferAll (cs : List Char) (l : LexState) : LexState :=
  cs.foldl (fun m c => BufferRune c m) l

/-- w4 is a fresh engine state over the two-rune stream x y. -/
def w4 : LexState :=
  { rd := [Rd.good 'x', Rd.good 'y'], outbuf := "", ch := [], row := -1, col := -1,
    absRow := 1, absCol := 0 }

/-- w5 is a fresh engine state over the one-rune stream x. -/
def w5 : LexState :=
  { rd := [Rd.good 'x'], outbuf := "", ch := [], row := -1, col := -1,
    absRow := 1, absCol := 0 }

/-- w6 is a fresh engine state over the empty stream. -/
def w6 : LexState :=
  { rd := [], outbuf := "", ch := [], row := -1, col := -1,
    absRow := 1, absCol := 0 }

/-- C10: EmitErr publishes exactly the error token on the channel and leaves
every other engine field, including the current state function, the output
buffer, the recorded token start and the absolute position counters,
unchanged. -/
theorem emitErr_frame {σ : Type} (e : GoError) (l : Lexer σ) :
    (l.EmitErr e).state = l.state
    ∧ (l.EmitErr e).st.outbuf = l.st.outbuf
    ∧ (l.EmitErr e).st.row = l.st.row
    ∧ (l.EmitErr e).st.col = l.st.col
    ∧ (l.EmitErr e).st.absRow = l.st.absRow
    ∧ (l.EmitErr e).st.absCol = l.st.absCol
    ∧ (l.EmitErr e).st.rd = l.st.rd
    ∧ (l.EmitErr e).st.ch = l.st.ch ++ [errToken e] :=
  ⟨rfl, rfl, rfl, rfl, rfl, rfl, rfl, rfl⟩

/-- C9: with the reference grammar started in lexWhitespace, the input
(a b) lexes to exactly OpenParen, AlphaNum a, AlphaNum b, CloseParen and
then the end-of-stream error token. -/
theorem lex_paren_a_b_end_to_end :
    takeTokens 16 5 exLexer =
      [{ tokenType := OpenParen, val := "(", row := 1, col := 1, err := none },
       { tokenType := AlphaNum, val := "a", row := 1, col := 2, err := none },
       { tokenType := AlphaNum, val := "b", row := 1, col := 4, err := none },
       { tokenType := CloseParen, val := ")", row := 1, col := 5, err := none },
       { tokenType := Err, val := "", row := 0, col := 0, err := some GoError.eof }] := by
  decide

/-- C1: against the claim, the halted engine does not keep returning the
end-of-stream token: the call on which the state function returns nil
delivers the EOF error token, but every later call finds the nil current
state, queues an EOF token, and then invokes the nil state function, a Go
runtime panic. -/
theorem next_after_halt_panics :
    Next lexStep 4 (NewLexer [] (some LexerFunc.lexWhitespace))
        = NextRes.token (errToken GoError.eof) haltedLexer
    ∧ ∀ n : Nat, Next lexStep (n + 1) haltedLexer
        = NextRes.nilPanic
            { haltedLexer with
                st := { haltedLexer.st with ch := [errToken GoError.eof] } } := by
  refine ⟨by decide, fun n => rfl⟩

/-- C2: against the claim, Next does not always return a Token: from the
reachable halted engine, a call with any fuel reaches the nil current state
and panics instead of returning a token of any kind. -/
theorem next_panics_across_call_boundary :
    Next lexStep 4 (NewLexer [] (some LexerFunc.lexWhitespace))
        = NextRes.token (errToken GoError.eof) haltedLexer
    ∧ ∀ (n : Nat) (t : Token) (l' : Lexer LexerFunc),
        Next lexStep (n + 1) haltedLexer ≠ NextRes.token t l' := by
  refine ⟨by decide, fun n t l' h => ?_⟩
  rw [show Next lexStep (n + 1) haltedLexer
      = NextRes.nilPanic
          { haltedLexer with
              st := { haltedLexer.st with ch := [errToken GoError.eof] } } from rfl] at h
  exact NextRes.noConfusion h

/-- Witness for C2 at one fuel value: the call after halting is a panic,
not a returned token. -/
theorem next_panics_across_call_boundary_witness :
    Next lexStep 8 haltedLexer ≠ NextRes.token (errToken GoError.eof) haltedLexer :=
  next_panics_across_call_boundary.2 7 (errToken GoError.eof) haltedLexer

/-- C3: Next returns a queued token immediately, changing nothing but the
channel and invoking no state function; with an empty channel and a present
state function it invokes it once, installs the returned state function,
and loops on the resulting engine. -/
theorem next_checks_channel_then_steps {σ : Type} (step : StepFn σ) (n : Nat) (l : Lexer σ) :
    (∀ t rest, l.st.ch = t :: rest →
        Next step (n + 1) l = NextRes.token t { l with st := { l.st with ch := rest } })
    ∧ (∀ s, l.st.ch = [] → l.state = some s →
        Next step (n + 1) l
          = Next step n { st := (step s l.st).1, state := (step s l.st).2 }) := by
  obtain ⟨⟨rd, ob, ch, row, col, aR, aC⟩, stf⟩ := l
  constructor
  · intro t rest h
    dsimp only at h
    subst h
    rfl
  · intro s h1 h2
    dsimp only at h1 h2
    subst h1
    subst h2
    rfl

/-- Witness for C3 at a concrete engine with a queued token. -/
theorem next_checks_channel_then_steps_witness :
    Next lexStep 1 chanLexer
      = NextRes.token (errToken GoError.eof)
          { chanLexer with st := { chanLexer.st with ch := [] } } :=
  (next_checks_channel_then_steps lexStep 0 chanLexer).1 (errToken GoError.eof) [] rfl

/-- C7 counterexample: on a stream whose next unit is malformed, two
consecutive peeks with no intervening read disagree, and the first peek
advances the stream by consuming the malformed unit. -/
theorem peek_advances_on_invalid_unit :
    (PeekRune cexPeekState).1 = Except.error GoError.invalidUTF8
    ∧ (PeekRune (PeekRune cexPeekState).2).1 = Except.ok 'a'
    ∧ (PeekRune cexPeekState).2.rd ≠ cexPeekState.rd := by
  decide

/-- C7 amended: when the next stream unit is a validly encoded rune,
PeekRune returns it and leaves the engine state entirely unchanged, so a
second peek with no intervening read returns the same rune and neither peek
advances the stream or the position counters. -/
theorem peek_idempotent_on_valid (l : LexState) (c : Char) (rest : List Rd)
    (h : l.rd = Rd.good c :: rest) :
    PeekRune l = (Except.ok c, l)
    ∧ (PeekRune (PeekRune l).2).1 = Except.ok c
    ∧ (PeekRune l).2 = l := by
  obtain ⟨rd, ob, ch, row, col, aR, aC⟩ := l
  dsimp only at h
  subst h
  exact ⟨rfl, rfl, rfl⟩

/-- Witness for the amended C7 at a concrete stream. -/
theorem peek_idempotent_on_valid_witness :
    PeekRune w7 = (Except.ok 'a', w7) ∧ (PeekRune (PeekRune w7).2).1 = Except.ok 'a' :=
  ⟨(peek_idempotent_on_valid w7 'a' [] rfl).1,
   (peek_idempotent_on_valid w7 'a' [] rfl).2.1⟩

/-- C8: on a malformed unit the read primitive publishes exactly one error
token carrying the dedicated invalid-encoding error value, returns the
no-character failure to the caller, surfaces the same failure through
ReadRune and PeekRune, and that error value is distinct from end-of-stream
and from every generic I/O failure. -/
theorem invalid_encoding_error_distinct (l : LexState) (rest : List Rd)
    (h : l.rd = Rd.bad :: rest) :
    readRune l = (Except.error GoError.invalidUTF8,
        { l with rd := rest, ch := l.ch ++ [errToken GoError.invalidUTF8] })
    ∧ (ReadRune l).1 = Except.error GoError.invalidUTF8
    ∧ (PeekRune l).1 = Except.error GoError.invalidUTF8
    ∧ GoError.invalidUTF8 ≠ GoError.eof
    ∧ ∀ s, GoError.invalidUTF8 ≠ GoError.ioError s := by
  obtain ⟨rd, ob, ch, row, col, aR, aC⟩ := l
  dsimp only at h
  subst h
  exact ⟨rfl, rfl, rfl, fun hh => GoError.noConfusion hh,
    fun s hh => GoError.noConfusion hh⟩

/-- Witness for C8 at a concrete malformed stream. -/
theorem invalid_encoding_error_distinct_witness :
    readRune w8 = (Except.error GoError.invalidUTF8,
      { w8 with rd := [], ch := w8.ch ++ [errToken GoError.invalidUTF8] }) :=
  (invalid_encoding_error_distinct w8 [] rfl).1

/-- ReadRune leaves the recorded token start and the output buffer alone. -/
lemma ReadRune_rowcol (m : LexState) :
    ((ReadRune m).2).row = m.row ∧ ((ReadRune m).2).col = m.col
    ∧ ((ReadRune m).2).outbuf = m.outbuf := by
  obtain ⟨rd, ob, ch, row, col, aR, aC⟩ := m
  cases rd with
  | nil => exact ⟨rfl, rfl, rfl⟩
  | cons hd tl =>
    cases hd with
    | bad => exact ⟨rfl, rfl, rfl⟩
    | good c =>
      by_cases hc : c = '\n'
      · subst hc
        exact ⟨rfl, rfl, rfl⟩
      · simp only [ReadRune, readRune]
        rw [if_neg hc]
        exact ⟨rfl, rfl, rfl⟩

/-- ReadRune never decreases the absolute row counter. -/
lemma ReadRune_absRow_mono (m : LexState) : m.absRow ≤ ((ReadRune m).2).absRow := by
  obtain ⟨rd, ob, ch, row, col, aR, aC⟩ := m
  cases rd with
  | nil => exact le_refl _
  | cons hd tl =>
    cases hd with
    | bad => exact le_refl _
    | good c =>
      by_cases hc : c = '\n'
      · subst hc
        show aR ≤ aR + 1
        omega
      · simp only [ReadRune, readRune]
        rw [if_neg hc]

/-- PeekRune leaves the positions and the output buffer alone. -/
lemma PeekRune_frame (m : LexState) :
    ((PeekRune m).2).row = m.row ∧ ((PeekRune m).2).col = m.col
    ∧ ((PeekRune m).2).outbuf = m.outbuf
    ∧ ((PeekRune m).2).absRow = m.absRow ∧ ((PeekRune m).2).absCol = m.absCol := by
  obtain ⟨rd, ob, ch, row, col, aR, aC⟩ := m
  cases rd with
  | nil => exact ⟨rfl, rfl, rfl, rfl, rfl⟩
  | cons hd tl => cases hd <;> exact ⟨rfl, rfl, rfl, rfl, rfl⟩

/-- BufferRune never touches the absolute counters and always appends the
rune to the output buffer. -/
lemma BufferRune_abs (r : Char) (m : LexState) :
    (BufferRune r m).absRow = m.absRow ∧ (BufferRune r m).absCol = m.absCol
    ∧ (BufferRune r m).outbuf = m.outbuf.push r := by
  simp only [BufferRune]
  split
  · exact ⟨rfl, rfl, rfl⟩
  · exact ⟨rfl, rfl, rfl⟩

/-- BufferRune on a reset buffer records the current absolute position as
the token start. -/
lemma BufferRune_fresh (r : Char) (m : LexState) (h1 : m.row < 0) (h2 : m.col < 0) :
    (BufferRune r m).row = m.absRow ∧ (BufferRune r m).col = m.absCol := by
  simp only [BufferRune]
  split
  · exact ⟨rfl, rfl⟩
  · rename_i hcontra
    exact absurd ⟨h1, h2⟩ hcontra

/-- BufferRune on a started buffer leaves the recorded start alone. -/
lemma BufferRune_started (r : Char) (m : LexState) (h : ¬ (m.row < 0 ∧ m.col < 0)) :
    (BufferRune r m).row = m.row ∧ (BufferRune r m).col = m.col := by
  simp only [BufferRune]
  split
  · rename_i hg
    exact absurd hg h
  · exact ⟨rfl, rfl⟩

/-- Once the token start has been recorded at a positive row, no buffering
sequence changes the recorded start. -/
lemma runBOps_row_col_frozen (ops : List BOp) (l : LexState) (h : 1 ≤ l.row) :
    (runBOps ops l).row = l.row ∧ (runBOps ops l).col = l.col := by
  induction ops generalizing l with
  | nil => exact ⟨rfl, rfl⟩
  | cons op ops ih =>
    have hop : (runBOp op l).row = l.row ∧ (runBOp op l).col = l.col := by
      cases op with
      | skip => exact ⟨(ReadRune_rowcol l).1, (ReadRune_rowcol l).2.1⟩
      | peekOp => exact ⟨(PeekRune_frame l).1, (PeekRune_frame l).2.1⟩
      | keep =>
        rcases hR : ReadRune l with ⟨res, l'⟩
        have hfrm := ReadRune_rowcol l
        simp only [hR] at hfrm
        cases res with
        | error e => simpa [runBOp, hR] using ⟨hfrm.1, hfrm.2.1⟩
        | ok c =>
          have hng : ¬ (l'.row < 0 ∧ l'.col < 0) := by
            intro hcontra
            rw [hfrm.1] at hcontra
            omega
          have hb := BufferRune_started c l' hng
          simp only [runBOp, hR]
          exact ⟨hb.1.trans hfrm.1, hb.2.trans hfrm.2.1⟩
    have h' : 1 ≤ (runBOp op l).row := by
      rw [hop.1]
      exact h
    have hrec := ih (runBOp op l) h'
    exact ⟨hrec.1.trans hop.1, hrec.2.trans hop.2⟩

/-- After any buffering sequence from a reset buffer, the recorded token
start is the position at which the first buffered rune was read, and stays
reset when nothing was buffered. -/
lemma runBOps_firstKeptPos (ops : List BOp) (l : LexState)
    (hrow : l.row = -1) (hcol : l.col = -1) (habs : 1 ≤ l.absRow) :
    ((runBOps ops l).row, (runBOps ops l).col)
      = (firstKeptPos ops l).getD (-1, -1) := by
  induction ops generalizing l with
  | nil =>
    show (l.row, l.col) = ((-1 : Int), (-1 : Int))
    rw [hrow, hcol]
  | cons op ops ih =>
    cases op with
    | skip =>
      have hfrm := ReadRune_rowcol l
      have hmono := ReadRune_absRow_mono l
      exact ih ((ReadRune l).2) (hfrm.1.trans hrow) (hfrm.2.1.trans hcol)
        (le_trans habs hmono)
    | peekOp =>
      have hfrm := PeekRune_frame l
      have habs' : 1 ≤ ((PeekRune l).2).absRow := by
        rw [hfrm.2.2.2.1]
        exact habs
      exact ih ((PeekRune l).2) (hfrm.1.trans hrow) (hfrm.2.1.trans hcol) habs'
    | keep =>
      rcases hR : ReadRune l with ⟨res, l'⟩
      have hfrm := ReadRune_rowcol l
      have hmono := ReadRune_absRow_mono l
      simp only [hR] at hfrm hmono
      cases res with
      | error e =>
        have hgoal : runBOps (BOp.keep :: ops) l = runBOps ops l' := by
          simp [runBOps, runBOp, hR]
        have hfk : firstKeptPos (BOp.keep :: ops) l = firstKeptPos ops l' := by
          simp [firstKeptPos, hR]
        rw [hgoal, hfk]
        exact ih l' (hfrm.1.trans hrow) (hfrm.2.1.trans hcol) (le_trans habs hmono)
      | ok c =>
        have hfk : firstKeptPos (BOp.keep :: ops) l = some (l'.absRow, l'.absCol) := by
          simp [firstKeptPos, hR]
        have hgoal : runBOps (BOp.keep :: ops) l = runBOps ops (BufferRune c l') := by
          simp [runBOps, runBOp, hR]
        have habs' : 1 ≤ l'.absRow := le_trans habs hmono
        have hb := BufferRune_fresh c l'
          (by rw [hfrm.1, hrow]; decide) (by rw [hfrm.2.1, hcol]; decide)
        have hfz := runBOps_row_col_frozen ops (BufferRune c l') (by rw [hb.1]; exact habs')
        rw [hgoal, hfk]
        show ((runBOps ops (BufferRune c l')).row, (runBOps ops (BufferRune c l')).col)
          = (l'.absRow, l'.absCol)
        rw [hfz.1, hfz.2, hb.1, hb.2]

/-- C4: a token emitted after any sequence of reads, peeks and buffers from
a reset buffer carries as (row, col) the absolute stream position at which
the first buffered rune was read, regardless of how many runes were read or
skipped before it and of the position at emission time. -/
theorem token_position_is_first_buffered_read (ops : List BOp) (l : LexState)
    (hrow : l.row = -1) (hcol : l.col = -1) (habs : 1 ≤ l.absRow)
    (t : TokenType) (p : Int × Int) (hp : firstKeptPos ops l = some p) :
    (Emit t (runBOps ops l)).ch
      = (runBOps ops l).ch
        ++ [{ tokenType := t, val := (runBOps ops l).outbuf,
              row := p.1, col := p.2, err := none }] := by
  have h := runBOps_firstKeptPos ops l hrow hcol habs
  rw [hp] at h
  obtain ⟨p1, p2⟩ := p
  have h1 : (runBOps ops l).row = p1 := congrArg Prod.fst h
  have h2 : (runBOps ops l).col = p2 := congrArg Prod.snd h
  simp [Emit, h1, h2]

/-- Witness for C4: skip one rune, buffer the next; the token start is the
position of the buffered rune, column 2, not of emission. -/
theorem token_position_is_first_buffered_read_witness :
    (Emit AlphaNum (runBOps [BOp.skip, BOp.keep] w4)).ch
      = (runBOps [BOp.skip, BOp.keep] w4).ch
        ++ [{ tokenType := AlphaNum, val := (runBOps [BOp.skip, BOp.keep] w4).outbuf,
              row := 1, col := 2, err := none }] :=
  token_position_is_first_buffered_read [BOp.skip, BOp.keep] w4 rfl rfl (by decide)
    AlphaNum (1, 2) (by decide)

/-- C5: a successful ReadRune of a newline increments the absolute row and
resets the absolute column to 0; a successful read of any other rune leaves
the row and increments the column; reads never decrease the absolute row,
and no other engine operation ever changes the absolute counters. -/
theorem read_advance_law (l : LexState) (c : Char) (rest : List Rd)
    (h : l.rd = Rd.good c :: rest) :
    ((c = '\n' → ((ReadRune l).2).absRow = l.absRow + 1 ∧ ((ReadRune l).2).absCol = 0)
      ∧ (c ≠ '\n' → ((ReadRune l).2).absRow = l.absRow
          ∧ ((ReadRune l).2).absCol = l.absCol + 1)
      ∧ (ReadRune l).1 = Except.ok c)
    ∧ ∀ m : LexState,
        m.absRow ≤ ((ReadRune m).2).absRow
        ∧ ((PeekRune m).2).absRow = m.absRow ∧ ((PeekRune m).2).absCol = m.absCol
        ∧ (∀ t, (Emit t m).absRow = m.absRow ∧ (Emit t m).absCol = m.absCol)
        ∧ (∀ e, (EmitErr e m).absRow = m.absRow ∧ (EmitErr e m).absCol = m.absCol)
        ∧ ∀ r, (BufferRune r m).absRow = m.absRow ∧ (BufferRune r m).absCol = m.absCol := by
  constructor
  · obtain ⟨rd, ob, ch, row, col, aR, aC⟩ := l
    dsimp only at h
    subst h
    by_cases hc : c = '\n'
    · subst hc
      exact ⟨fun _ => ⟨rfl, rfl⟩, fun hne => absurd rfl hne, rfl⟩
    · have hred : ReadRune (⟨Rd.good c :: rest, ob, ch, row, col, aR, aC⟩ : LexState)
          = (Except.ok c, ⟨rest, ob, ch, row, col, aR, aC + 1⟩) := by
        simp only [ReadRune, readRune]
        rw [if_neg hc]
      rw [hred]
      exact ⟨fun heq => absurd heq hc, fun _ => ⟨rfl, rfl⟩, rfl⟩
  · intro m
    exact ⟨ReadRune_absRow_mono m, (PeekRune_frame m).2.2.2.1, (PeekRune_frame m).2.2.2.2,
      fun t => ⟨rfl, rfl⟩, fun e => ⟨rfl, rfl⟩,
      fun r => ⟨(BufferRune_abs r m).1, (BufferRune_abs r m).2.1⟩⟩

/-- Witness for C5 at a concrete non-newline read. -/
theorem read_advance_law_witness :
    ((ReadRune w5).2).absRow = w5.absRow ∧ ((ReadRune w5).2).absCol = w5.absCol + 1 :=
  (read_advance_law w5 'x' [] rfl).1.2.1 (by decide)

/-- Pushing a rune appends it to the character data of a string. -/
lemma data_push (s : String) (c : Char) : (s.push c).data = s.data ++ [c] := by
  cases s
  rfl

/-- Equal character data means equal strings. -/
lemma string_eq_of_data (s t : String) (h : s.data = t.data) : s = t :=
  congrArg String.mk h

/-- Buffering a list of runes appends them to the output buffer data. -/
lemma bufferAll_data (cs : List Char) (l : LexState) :
    (bufferAll cs l).outbuf.data = l.outbuf.data ++ cs := by
  induction cs generalizing l with
  | nil => simp [bufferAll]
  | cons c cs ih =>
    show (bufferAll cs (BufferRune c l)).outbuf.data = l.outbuf.data ++ (c :: cs)
    rw [ih (BufferRune c l), (BufferRune_abs c l).2.2, data_push]
    simp

/-- Buffering a list of runes into an empty buffer yields exactly them. -/
lemma bufferAll_outbuf_empty (cs : List Char) (l : LexState) (h : l.outbuf = "") :
    (bufferAll cs l).outbuf = String.mk cs := by
  apply string_eq_of_data
  rw [bufferAll_data, h]
  rfl

/-- C6: buffering runes c1..cn into an empty buffer and then emitting type t
publishes exactly one token with text c1..cn and type t; immediately after,
the output buffer is empty and the recorded start position is reset, so the
next BufferRune records a fresh start from the absolute counters. -/
theorem buffer_emit_round_trip (cs : List Char) (l : LexState) (h : l.outbuf = "")
    (t : TokenType) :
    (Emit t (bufferAll cs l)).ch
      = (bufferAll cs l).ch
        ++ [{ tokenType := t, val := String.mk cs,
              row := (bufferAll cs l).row, col := (bufferAll cs l).col, err := none }]
    ∧ (Emit t (bufferAll cs l)).outbuf = ""
    ∧ (Emit t (bufferAll cs l)).row = -1
    ∧ (Emit t (bufferAll cs l)).col = -1
    ∧ ∀ r, (BufferRune r (Emit t (bufferAll cs l))).row
             = (Emit t (bufferAll cs l)).absRow
         ∧ (BufferRune r (Emit t (bufferAll cs l))).col
             = (Emit t (bufferAll cs l)).absCol := by
  refine ⟨?_, rfl, rfl, rfl, fun r => ?_⟩
  · simp [Emit, bufferAll_outbuf_empty cs l h]
  · exact BufferRune_fresh r _ (by show (-1 : Int) < 0; decide)
      (by show (-1 : Int) < 0; decide)

/-- Witness for C6 buffering a b then emitting. -/
theorem buffer_emit_round_trip_witness :
    (Emit OpenParen (bufferAll ['a', 'b'] w6)).ch
      = (bufferAll ['a', 'b'] w6).ch
        ++ [{ tokenType := OpenParen, val := String.mk ['a', 'b'],
              row := (bufferAll ['a', 'b'] w6).row, col := (bufferAll ['a', 'b'] w6).col,
              err := none }] :=
  (buffer_emit_round_trip ['a', 'b'] w6 rfl OpenParen).1

end Lexgo
